import Mathlib

/-!
Verification development for the moveit crate (in-place construction of
values, copy- and move-construction, stack and heap emplacement).

The crate root (src/lib.rs) declares the modules ctor, stackbox and unique
and documents the contracts of Ctor, TryCtor, CopyCtor, MoveCtor, Emplace,
Slot and StackBox; the bodies of those modules are not part of the sources
available here, so the operational behaviour below is modelled from the
specification. Memory is a list of slots addressed by index; a value may
carry an internal self-pointer (an address), which is how the
self-referential scenario from the crate documentation is represented.
-/

namespace Moveit

/-- An address: the index of a slot in memory. -/
abbrev Addr := Nat

/-- A typed construction error (the error type of the fallible TryCtor form). -/
abbrev Err := Nat

/-- Modelled from the spec: a value as stored in a slot.  It has a data
field (the string field of the concrete scenario) and an optional internal
pointer, which for a self-referential value holds the address of its own
data field (the slot address, the field being at offset zero). -/
structure Val where
  data : List Char
  slice : Option Addr
deriving DecidableEq

/-- Modelled from the spec: a non-owning reference to a value (source of
copy-construction).  Distinct from an owning handle by type. -/
structure Ref where
  addr : Addr
deriving DecidableEq

/-- Modelled from the spec: an owning handle (DerefMove in the crate root):
a handle to a value together with the authority to destroy it and repurpose
its storage.  Move-construction accepts only this type, never Ref. -/
structure OwnHandle where
  addr : Addr
deriving DecidableEq

/-- Modelled from the spec: the constructors of the missing ctor module.
A constructor is a deferred one-shot production rule for a value:
ret is the plain value constructor, selfRef builds a self-referential
value whose internal pointer is the destination address, fails is a
fallible constructor that reports a typed error, copyFrom is the
constructor generated by copy-capability from a non-owning reference,
and moveFrom is the constructor generated by move-capability from an
owning handle (its optional error models a fallible underlying
construction). -/
inductive CtorK
  | ret (v : Val)
  | selfRef (data : List Char)
  | fails (e : Err)
  | copyFrom (r : Ref)
  | moveFrom (h : OwnHandle) (fe : Option Err)
deriving DecidableEq

/-- Modelled from the spec: the state of one memory slot, following the
per-slot state machine of the spec: empty, running (remembering the pending
constructor), live (holding a value), failed (construction aborted with a
typed error; the slot holds no value), destroyed (terminal). -/
inductive SlotSt
  | empty
  | running (k : CtorK)
  | live (v : Val)
  | failed (e : Err)
  | destroyed
deriving DecidableEq

/-- Observable events: completion of a construction at an address,
a destructor running on the value at an address, and a constructor
reporting a typed failure at an address. -/
inductive Event
  | constructed (a : Addr)
  | destructed (a : Addr)
  | ctorFailed (a : Addr) (e : Err)
deriving DecidableEq

/-- Modelled from the spec: the system state: memory (a list of slots,
address = index), the environment of still-available (unconsumed)
constructors, identified by number, and the trace of events so far. -/
structure State where
  mem : List SlotSt
  ctors : List (Nat × CtorK)
  events : List Event
deriving DecidableEq

/-- The slot at an address; addresses outside the allocated memory read as
empty (storage not yet in use). -/
def slotAt (s : State) (a : Addr) : SlotSt :=
  s.mem.getD a .empty

/-- Whether a slot currently holds a live value. -/
def isLive : SlotSt → Bool
  | .live _ => true
  | _ => false

/-- Whether a slot is uninitialized, that is, holds no value and no value
was ever completed in it: both an empty slot and a slot whose construction
failed are uninitialized. -/
def uninitSt : SlotSt → Bool
  | .empty => true
  | .failed _ => true
  | _ => false

/-- Look up an available constructor by identifier. -/
def findCtor (c : Nat) : List (Nat × CtorK) → Option CtorK
  | [] => none
  | (i, k) :: rest => if i = c then some k else findCtor c rest

/-- Remove a constructor from the environment: running a constructor
consumes it. -/
def dropCtor (c : Nat) (l : List (Nat × CtorK)) : List (Nat × CtorK) :=
  l.filter (fun p => p.1 != c)

/-- Rewrite the internal pointer of a value for a move from address src to
address dst: a self-pointer into the source is re-pointed at the
destination, as a raw byte copy could not do. -/
def repoint (v : Val) (src dst : Addr) : Val :=
  { data := v.data, slice := v.slice.map (fun p => if p = src then dst else p) }

/-- Modelled from the spec: what a constructor produces when run against
the slot at address a.  Copy reads the (live) source through a non-owning
reference; move reads it through an owning handle, re-pointing internal
self-pointers at the destination, and may instead propagate a failure of
the underlying construction.  The result is none when a source slot is not
live (a situation the host language's borrow rules exclude). -/
def ctorOutput (s : State) (a : Addr) : CtorK → Option (Except Err Val)
  | .ret v => some (.ok v)
  | .selfRef d => some (.ok { data := d, slice := some a })
  | .fails e => some (.error e)
  | .copyFrom r =>
    match slotAt s r.addr with
    | .live v => some (.ok (repoint v r.addr a))
    | _ => none
  | .moveFrom h fe =>
    match slotAt s h.addr with
    | .live v =>
      match fe with
      | none => some (.ok (repoint v h.addr a))
      | some e => some (.error e)
    | _ => none

/-- Structural precondition for starting a constructor against slot a:
the source of a copy or move must be a live value in a different slot. -/
def ctorPre (s : State) (a : Addr) : CtorK → Bool
  | .copyFrom r => isLive (slotAt s r.addr) && (r.addr != a)
  | .moveFrom h _ => isLive (slotAt s h.addr) && (h.addr != a)
  | _ => true

/-- The primitive operations of the model: allocating a fresh empty slot,
starting an available constructor against an empty slot (consuming the
constructor), completing the pending construction of a slot, destroying a
live value, and mutating the data of a live value. -/
inductive Op
  | alloc
  | beginRun (c : Nat) (a : Addr)
  | finishRun (a : Addr)
  | destroy (a : Addr)
  | setData (a : Addr) (d : List Char)
deriving DecidableEq

/-- Modelled from the spec: the one-step interpreter.  beginRun consumes
the constructor and puts the slot into the running state; finishRun
completes the construction: on success the slot becomes live (and, for a
move, the source is then destroyed — only after the new value is fully
constructed); on a typed failure the slot is abandoned with no value and no
destructor runs; destroy runs the destructor of a live value; setData
mutates a live value in place.  The result is none when the operation's
preconditions do not hold. -/
def exec (s : State) : Op → Option State
  | .alloc => some { s with mem := s.mem ++ [.empty] }
  | .beginRun c a =>
    match findCtor c s.ctors with
    | none => none
    | some k =>
      if a < s.mem.length ∧ slotAt s a = SlotSt.empty ∧ ctorPre s a k = true then
        some { s with mem := s.mem.set a (.running k), ctors := dropCtor c s.ctors }
      else none
  | .finishRun a =>
    match slotAt s a with
    | .running k =>
      match ctorOutput s a k with
      | some (.ok v) =>
        let s1 : State :=
          { s with mem := s.mem.set a (.live v),
                   events := s.events ++ [.constructed a] }
        match k with
        | .moveFrom h _ =>
          some { s1 with mem := s1.mem.set h.addr .destroyed,
                         events := s1.events ++ [.destructed h.addr] }
        | _ => some s1
      | some (.error e) =>
        some { s with mem := s.mem.set a (.failed e),
                      events := s.events ++ [.ctorFailed a e] }
      | none => none
    | _ => none
  | .destroy a =>
    match slotAt s a with
    | .live _ =>
      some { s with mem := s.mem.set a .destroyed,
                    events := s.events ++ [.destructed a] }
    | _ => none
  | .setData a d =>
    match slotAt s a with
    | .live v => some { s with mem := s.mem.set a (.live { data := d, slice := v.slice }) }
    | _ => none

/-- Run a list of operations in order, failing if any step fails. -/
def execs (s : State) : List Op → Option State
  | [] => some s
  | o :: rest =>
    match exec s o with
    | some s' => execs s' rest
    | none => none

/-- Reading through a pointer: the data of the live value at the pointed-to
address, if any. -/
def readPtr (s : State) (p : Addr) : Option (List Char) :=
  match slotAt s p with
  | .live v => some v.data
  | _ => none

/-- The addresses on which a destructor has run, in order. -/
def destructs (s : State) : List Addr :=
  s.events.filterMap (fun ev =>
    match ev with
    | .destructed a => some a
    | _ => none)

/-- The number of live values in memory. -/
def liveCount (s : State) : Nat :=
  s.mem.countP (fun st => isLive st)

/-- The source slot a constructor will destroy when run, if any: only
move-construction destroys its source. -/
def moveSrc : CtorK → Option Addr
  | .moveFrom h _ => some h.addr
  | _ => none

/-- The operations that emplace a constructor into a freshly allocated
slot: allocate, start the constructor against the new slot, complete it. -/
def emplaceOps (s : State) (c : Nat) : List Op :=
  [.alloc, .beginRun c s.mem.length, .finishRun s.mem.length]

/-- Modelled from the spec: running a constructor into a fresh stack slot
(the emplace macro over Slot and StackBox of the missing stackbox module):
the address of the new slot is returned together with the new state. -/
def emplaceFresh (s : State) (c : Nat) : Option (State × Addr) :=
  match execs s (emplaceOps s c) with
  | some s' => some (s', s.mem.length)
  | none => none

/-- Modelled from the spec: the heap emplacement target (the Emplace
extension of the missing ctor module).  The allocator's outcome is passed
explicitly; when allocation fails, the failure is returned as an error,
the state is returned unchanged and the constructor is never run. -/
def emplaceNew (s : State) (c : Nat) (allocOk : Bool) : State × Except Unit Addr :=
  if allocOk then
    match emplaceFresh s c with
    | some (s', a) => (s', .ok a)
    | none => (s, .error ())
  else (s, .error ())

/-- Modelled from the spec: the construction phase of a lexical scope of
stack slots.  Each constructor in the list is emplaced into a fresh slot;
the addresses of the successfully constructed slots are accumulated, most
recent first.  A constructor failure exits the scope early: the remaining
constructors are never run. -/
def scopeBuild (s : State) (cs : List Nat) (built : List Addr) : State × List Addr :=
  match cs with
  | [] => (s, built)
  | c :: rest =>
    match emplaceFresh s c with
    | some (s', a) =>
      if isLive (slotAt s' a) then scopeBuild s' rest (a :: built)
      else (s', built)
    | none => (s, built)

/-- Destroy the values at the given addresses in order. -/
def destroyAll (s : State) : List Addr → State
  | [] => s
  | a :: rest => destroyAll ((exec s (.destroy a)).getD s) rest

/-- Modelled from the spec: a whole scope of stack-emplaced slots: run the
constructors in order, then, on scope exit (normal or early after a
failure), destroy the constructed values in reverse order of
construction. -/
def runScope (s : State) (cs : List Nat) : State :=
  let p := scopeBuild s cs []
  destroyAll p.1 p.2

/-- Drop a list of constructors in order (the consumptions a scope
performs). -/
def dropCtors (cs : List Nat) (l : List (Nat × CtorK)) : List (Nat × CtorK) :=
  match cs with
  | [] => l
  | c :: rest => dropCtors rest (dropCtor c l)

/-- Modelled from the spec: the handle an emplacement target hands back (a
StackBox): it holds the address of the slot the value lives in.  Moving or
rebinding the handle copies the handle itself and leaves the slot — and
hence the value and its internal self-pointers — untouched. -/
structure StackBox where
  addr : Addr
deriving DecidableEq

/-- Moving a StackBox handle to a new binding: the handle value is
relocated, the slot it designates is not. -/
def moveHandle (b : StackBox) : StackBox :=
  { addr := b.addr }

/-- The internal pointer of the value a handle designates, if it is live. -/
def derefSlice (s : State) (b : StackBox) : Option (Option Addr) :=
  match slotAt s b.addr with
  | .live v => some v.slice
  | _ => none

/-- The data of the value a handle designates, if it is live. -/
def derefData (s : State) (b : StackBox) : Option (List Char) :=
  match slotAt s b.addr with
  | .live v => some v.data
  | _ => none

/-- The abstract construction phase of a slot, forgetting the payload. -/
inductive Phase
  | emptyP
  | runningP
  | liveP
  | failedP
  | destroyedP
deriving DecidableEq

/-- The phase of a slot state. -/
def phase : SlotSt → Phase
  | .empty => .emptyP
  | .running _ => .runningP
  | .live _ => .liveP
  | .failed _ => .failedP
  | .destroyed => .destroyedP

/-- The transitions the spec's per-slot state machine allows: staying put,
empty to running, running to live or failed, live to destroyed.  The
failed and destroyed phases are terminal. -/
def AllowedStep (p q : Phase) : Prop :=
  p = q
  ∨ (p = .emptyP ∧ q = .runningP)
  ∨ (p = .runningP ∧ (q = .liveP ∨ q = .failedP))
  ∨ (p = .liveP ∧ q = .destroyedP)

/-! List helpers about getD, set and append, used to reason about memory. -/

theorem getD_set_self {α} : ∀ (l : List α) (a : Nat) (x d : α), a < l.length →
    (l.set a x).getD a d = x
  | [], a, x, d, h => absurd h (by simp)
  | _ :: _, 0, _, _, _ => rfl
  | _ :: l, a + 1, x, d, h => getD_set_self l a x d (Nat.lt_of_succ_lt_succ h)

theorem getD_set_ne {α} : ∀ (l : List α) (a b : Nat) (x d : α), b ≠ a →
    (l.set a x).getD b d = l.getD b d
  | [], _, _, _, _, _ => rfl
  | _ :: _, 0, 0, _, _, h => absurd rfl h
  | _ :: _, 0, _ + 1, _, _, _ => rfl
  | _ :: _, _ + 1, 0, _, _, _ => rfl
  | _ :: l, a + 1, b + 1, x, d, h =>
    getD_set_ne l a b x d (fun hba => h (congrArg Nat.succ hba))

theorem getD_append_single {α} : ∀ (l : List α) (x : α) (a : Nat) (d : α),
    (l ++ [x]).getD a d = if a < l.length then l.getD a d else if a = l.length then x else d
  | [], _, 0, _ => rfl
  | [], _, _ + 1, _ => by simp [List.getD]
  | _ :: _, _, 0, _ => by simp
  | y :: l, x, a + 1, d => by
    have ih := getD_append_single l x a d
    simpa [List.getD, Nat.succ_lt_succ_iff] using ih

theorem set_append_single {α} : ∀ (l : List α) (x y : α),
    (l ++ [x]).set l.length y = l ++ [y]
  | [], _, _ => rfl
  | z :: l, x, y => congrArg (z :: ·) (set_append_single l x y)

theorem liveCount_set_live : ∀ (l : List SlotSt) (a : Nat) (v : Val),
    a < l.length → l.getD a .empty = .empty →
    (l.set a (.live v)).countP (fun st => isLive st) =
      l.countP (fun st => isLive st) + 1
  | [], a, v, ha, h => absurd ha (by simp)
  | z :: l, 0, v, ha, h => by
    have hz : z = SlotSt.empty := h
    subst hz
    simp [List.countP_cons, isLive]
  | z :: l, a + 1, v, ha, h => by
    have ih := liveCount_set_live l a v (Nat.lt_of_succ_lt_succ ha) h
    simp only [List.set, List.countP_cons]
    omega

/-! Characterizations of the single steps, used throughout. -/

theorem beginRun_ok (s : State) (c : Nat) (k : CtorK) (a : Addr)
    (hf : findCtor c s.ctors = some k) (ha : a < s.mem.length)
    (he : slotAt s a = SlotSt.empty) (hp : ctorPre s a k = true) :
    exec s (.beginRun c a) =
      some { s with mem := s.mem.set a (.running k), ctors := dropCtor c s.ctors } := by
  simp [exec, hf, ha, he, hp]

theorem finishRun_ok_plain (s : State) (a : Addr) (k : CtorK) (v : Val)
    (hr : slotAt s a = SlotSt.running k)
    (ho : ctorOutput s a k = some (.ok v))
    (hm : moveSrc k = none) :
    exec s (.finishRun a) =
      some { s with mem := s.mem.set a (.live v),
                    events := s.events ++ [.constructed a] } := by
  cases k <;> simp_all [exec, moveSrc]

theorem finishRun_ok_move (s : State) (a : Addr) (h : OwnHandle) (fe : Option Err) (v : Val)
    (hr : slotAt s a = SlotSt.running (.moveFrom h fe))
    (ho : ctorOutput s a (.moveFrom h fe) = some (.ok v)) :
    exec s (.finishRun a) =
      some { s with mem := (s.mem.set a (.live v)).set h.addr .destroyed,
                    events := s.events ++ [.constructed a, .destructed h.addr] } := by
  simp [exec, hr, ho]

theorem finishRun_err (s : State) (a : Addr) (k : CtorK) (e : Err)
    (hr : slotAt s a = SlotSt.running k)
    (ho : ctorOutput s a k = some (.error e)) :
    exec s (.finishRun a) =
      some { s with mem := s.mem.set a (.failed e),
                    events := s.events ++ [.ctorFailed a e] } := by
  simp [exec, hr, ho]

theorem destroy_ok (s : State) (a : Addr) (v : Val)
    (hl : slotAt s a = SlotSt.live v) :
    exec s (.destroy a) =
      some { s with mem := s.mem.set a .destroyed,
                    events := s.events ++ [.destructed a] } := by
  simp [exec, hl]

theorem setData_ok (s : State) (a : Addr) (v : Val) (d : List Char)
    (hl : slotAt s a = SlotSt.live v) :
    exec s (.setData a d) =
      some { s with mem := s.mem.set a (.live { data := d, slice := v.slice }) } := by
  simp [exec, hl]

/-- A constructor's output does not depend on the contents of the
destination slot, as long as its structural precondition holds (the source
of a copy or move lies in a different slot). -/
theorem ctorOutput_congr (s s' : State) (a : Addr) (k : CtorK)
    (hmem : ∀ b, b ≠ a → slotAt s' b = slotAt s b)
    (hp : ctorPre s a k = true) :
    ctorOutput s' a k = ctorOutput s a k := by
  cases k with
  | ret v => rfl
  | selfRef d => rfl
  | fails e => rfl
  | copyFrom r =>
    simp only [ctorPre, Bool.and_eq_true, bne_iff_ne, ne_eq] at hp
    simp only [ctorOutput]
    rw [hmem r.addr hp.2]
  | moveFrom h fe =>
    simp only [ctorPre, Bool.and_eq_true, bne_iff_ne, ne_eq] at hp
    simp only [ctorOutput]
    rw [hmem h.addr hp.2]

/-- Consuming a constructor removes it for good. -/
theorem findCtor_dropCtor_self (c : Nat) : ∀ (l : List (Nat × CtorK)),
    findCtor c (dropCtor c l) = none
  | [] => rfl
  | (i, k) :: rest => by
    have ih := findCtor_dropCtor_self c rest
    by_cases hic : i = c
    · simpa [dropCtor, hic] using ih
    · simpa [dropCtor, findCtor, hic] using ih

/-- Consuming one constructor leaves the others available unchanged. -/
theorem findCtor_dropCtor_ne (c c' : Nat) (hne : c' ≠ c) : ∀ (l : List (Nat × CtorK)),
    findCtor c' (dropCtor c l) = findCtor c' l
  | [] => rfl
  | (i, k) :: rest => by
    have ih := findCtor_dropCtor_ne c c' hne rest
    by_cases hic : i = c
    · have hic2 : ¬c = c' := fun h2 => hne h2.symm
      simpa [dropCtor, findCtor, hic, hic2] using ih
    · by_cases hic' : i = c'
      · simp [dropCtor, findCtor, hic', hne]
      · simpa [dropCtor, findCtor, hic, hic'] using ih

/-! Claim theorems. -/

/-- Claim C1: a value with an internal pointer to its own field,
constructed in place via the constructor abstraction and then
move-constructed into a second slot, has its internal pointer targeting
the field at the new slot (not the old, now-destroyed location), and
reading through the pointer yields the original content unchanged. -/
theorem move_repoints_self_pointer (s : State) (c1 c2 : Nat) (d : List Char) (src dst : Addr)
    (hne : c2 ≠ c1)
    (hf1 : findCtor c1 s.ctors = some (CtorK.selfRef d))
    (hf2 : findCtor c2 s.ctors = some (CtorK.moveFrom ⟨src⟩ none))
    (hsrc : src < s.mem.length) (hdst : dst < s.mem.length) (hsd : dst ≠ src)
    (hesrc : slotAt s src = SlotSt.empty) (hedst : slotAt s dst = SlotSt.empty) :
    ∃ s', execs s [Op.beginRun c1 src, Op.finishRun src, Op.beginRun c2 dst, Op.finishRun dst]
        = some s'
      ∧ slotAt s' dst = SlotSt.live { data := d, slice := some dst }
      ∧ slotAt s' src = SlotSt.destroyed
      ∧ readPtr s' dst = some d := by
  have h1 := beginRun_ok s c1 (.selfRef d) src hf1 hsrc hesrc rfl
  set s1 : State := { s with mem := s.mem.set src (.running (.selfRef d)),
                             ctors := dropCtor c1 s.ctors } with hs1def
  have hr1 : slotAt s1 src = SlotSt.running (.selfRef d) :=
    getD_set_self s.mem src _ .empty hsrc
  have ho1 : ctorOutput s1 src (.selfRef d) = some (.ok { data := d, slice := some src }) := rfl
  have h2 := finishRun_ok_plain s1 src (.selfRef d) _ hr1 ho1 rfl
  set s2 : State := { s1 with mem := s1.mem.set src (.live { data := d, slice := some src }),
                              events := s1.events ++ [.constructed src] } with hs2def
  have hf2' : findCtor c2 s2.ctors = some (CtorK.moveFrom ⟨src⟩ none) := by
    show findCtor c2 (dropCtor c1 s.ctors) = _
    rw [findCtor_dropCtor_ne c1 c2 hne]
    exact hf2
  have hlen2 : dst < s2.mem.length := by
    show dst < ((s.mem.set src _).set src _).length
    simpa using hdst
  have he2 : slotAt s2 dst = SlotSt.empty := by
    show ((s.mem.set src _).set src _).getD dst .empty = _
    rw [getD_set_ne _ _ _ _ _ hsd, getD_set_ne _ _ _ _ _ hsd]
    exact hedst
  have hlive2 : slotAt s2 src = SlotSt.live { data := d, slice := some src } := by
    show ((s.mem.set src _).set src _).getD src .empty = _
    exact getD_set_self _ _ _ _ (by simpa using hsrc)
  have hp2 : ctorPre s2 dst (.moveFrom ⟨src⟩ none) = true := by
    simp [ctorPre, hlive2, isLive, Ne.symm hsd]
  have h3 := beginRun_ok s2 c2 (.moveFrom ⟨src⟩ none) dst hf2' hlen2 he2 hp2
  set s3 : State := { s2 with mem := s2.mem.set dst (.running (.moveFrom ⟨src⟩ none)),
                              ctors := dropCtor c2 s2.ctors } with hs3def
  have hr3 : slotAt s3 dst = SlotSt.running (.moveFrom ⟨src⟩ none) :=
    getD_set_self s2.mem dst _ .empty hlen2
  have hsrc3 : slotAt s3 src = SlotSt.live { data := d, slice := some src } := by
    show (s2.mem.set dst _).getD src .empty = _
    rw [getD_set_ne _ _ _ _ _ (Ne.symm hsd)]
    exact hlive2
  have ho3 : ctorOutput s3 dst (.moveFrom ⟨src⟩ none)
      = some (.ok { data := d, slice := some dst }) := by
    simp [ctorOutput, hsrc3, repoint]
  have h4 := finishRun_ok_move s3 dst ⟨src⟩ none _ hr3 ho3
  have hlen3 : dst < s3.mem.length := by
    show dst < (s2.mem.set dst _).length
    simpa using hlen2
  have hfin_dst : ((s3.mem.set dst (SlotSt.live { data := d, slice := some dst })).set
        src SlotSt.destroyed).getD dst SlotSt.empty
      = SlotSt.live { data := d, slice := some dst } := by
    rw [getD_set_ne _ _ _ _ _ hsd]
    exact getD_set_self _ _ _ _ hlen3
  have hsrc3' : src < (s3.mem.set dst (SlotSt.live { data := d, slice := some dst })).length := by
    simpa using hsrc
  refine ⟨{ s3 with
      mem := (s3.mem.set dst (.live { data := d, slice := some dst })).set src .destroyed,
      events := s3.events ++ [.constructed dst, .destructed src] }, ?_, ?_, ?_, ?_⟩
  · simp only [execs, h1, h2, h3, h4]
  · exact hfin_dst
  · exact getD_set_self _ _ _ _ hsrc3'
  · show readPtr _ dst = some d
    unfold readPtr
    show (match ((s3.mem.set dst (SlotSt.live { data := d, slice := some dst })).set
        src SlotSt.destroyed).getD dst SlotSt.empty with
      | SlotSt.live v => some v.data
      | _ => none) = some d
    rw [hfin_dst]

/-- Witness for claim C1 at a concrete input: a two-slot memory, a
self-referential constructor for the string hello and the move constructor
generated from an owning handle to slot 0. -/
theorem move_repoints_self_pointer_witness :
    ∃ s', execs { mem := [SlotSt.empty, SlotSt.empty],
                  ctors := [(0, CtorK.selfRef ['h', 'e', 'l', 'l', 'o']),
                            (1, CtorK.moveFrom ⟨0⟩ none)],
                  events := [] }
        [Op.beginRun 0 0, Op.finishRun 0, Op.beginRun 1 1, Op.finishRun 1] = some s'
      ∧ slotAt s' 1 = SlotSt.live { data := ['h', 'e', 'l', 'l', 'o'], slice := some 1 }
      ∧ slotAt s' 0 = SlotSt.destroyed
      ∧ readPtr s' 1 = some ['h', 'e', 'l', 'l', 'o'] :=
  move_repoints_self_pointer
    { mem := [SlotSt.empty, SlotSt.empty],
      ctors := [(0, CtorK.selfRef ['h', 'e', 'l', 'l', 'o']),
                (1, CtorK.moveFrom ⟨0⟩ none)],
      events := [] }
    0 1 ['h', 'e', 'l', 'l', 'o'] 0 1
    (by decide) (by decide) (by decide) (by decide) (by decide) (by decide)
    (by decide) (by decide)

theorem getD_of_length_le {α} : ∀ (l : List α) (a : Nat) (d : α), l.length ≤ a →
    l.getD a d = d
  | [], _, _, _ => rfl
  | x :: l, 0, d, h => by simp at h
  | x :: l, a + 1, d, h => getD_of_length_le l a d (Nat.le_of_succ_le_succ h)

/-- A slot that is not empty lies inside the allocated memory. -/
theorem lt_length_of_slot_ne_empty (s : State) (a : Addr)
    (h : slotAt s a ≠ SlotSt.empty) : a < s.mem.length := by
  by_contra hge
  exact h (getD_of_length_le s.mem a .empty (Nat.le_of_not_lt hge))

/-- Claim C2: for a move-construction, the source's destruction happens no
earlier than the completion of the new value's construction (in the event
trace the construction of the destination precedes the destruction of the
source), and if the underlying fallible construction fails, the source
remains live and intact, no destructor runs on it, and the caller can
still destroy it normally. -/
theorem move_source_destroyed_after_construction (s : State) (c : Nat) (src dst : Addr)
    (v : Val) (fe : Option Err)
    (hf : findCtor c s.ctors = some (CtorK.moveFrom ⟨src⟩ fe))
    (hlv : slotAt s src = SlotSt.live v)
    (hdst : dst < s.mem.length) (hsd : dst ≠ src)
    (hedst : slotAt s dst = SlotSt.empty) :
    (fe = none → ∃ s',
      execs s [Op.beginRun c dst, Op.finishRun dst] = some s'
      ∧ s'.events = s.events ++ [Event.constructed dst, Event.destructed src]
      ∧ slotAt s' dst = SlotSt.live (repoint v src dst)
      ∧ slotAt s' src = SlotSt.destroyed)
    ∧ (∀ e, fe = some e → ∃ s',
      execs s [Op.beginRun c dst, Op.finishRun dst] = some s'
      ∧ s'.events = s.events ++ [Event.ctorFailed dst e]
      ∧ slotAt s' src = SlotSt.live v
      ∧ uninitSt (slotAt s' dst) = true
      ∧ (exec s' (Op.destroy src)).isSome = true) := by
  have hsrc : src < s.mem.length :=
    lt_length_of_slot_ne_empty s src (by rw [hlv]; intro h; cases h)
  have hp : ctorPre s dst (.moveFrom ⟨src⟩ fe) = true := by
    simp [ctorPre, hlv, isLive, Ne.symm hsd]
  have h1 := beginRun_ok s c (.moveFrom ⟨src⟩ fe) dst hf hdst hedst hp
  set s1 : State := { s with mem := s.mem.set dst (.running (.moveFrom ⟨src⟩ fe)),
                             ctors := dropCtor c s.ctors } with hs1def
  have hr1 : slotAt s1 dst = SlotSt.running (.moveFrom ⟨src⟩ fe) :=
    getD_set_self s.mem dst _ .empty hdst
  have hsrc1 : slotAt s1 src = SlotSt.live v := by
    show (s.mem.set dst _).getD src .empty = _
    rw [getD_set_ne _ _ _ _ _ (Ne.symm hsd)]
    exact hlv
  constructor
  · intro hfe
    subst hfe
    have ho : ctorOutput s1 dst (.moveFrom ⟨src⟩ none)
        = some (.ok (repoint v src dst)) := by
      simp [ctorOutput, hsrc1]
    have h2 := finishRun_ok_move s1 dst ⟨src⟩ none _ hr1 ho
    refine ⟨{ s1 with
        mem := (s1.mem.set dst (.live (repoint v src dst))).set src .destroyed,
        events := s1.events ++ [.constructed dst, .destructed src] }, ?_, rfl, ?_, ?_⟩
    · simp only [execs, h1, h2]
    · show ((s1.mem.set dst _).set src _).getD dst SlotSt.empty = _
      rw [getD_set_ne _ _ _ _ _ hsd]
      exact getD_set_self _ _ _ _ (by simpa using hdst)
    · show ((s1.mem.set dst _).set src _).getD src SlotSt.empty = _
      exact getD_set_self _ _ _ _ (by simpa using hsrc)
  · intro e hfe
    subst hfe
    have ho : ctorOutput s1 dst (.moveFrom ⟨src⟩ (some e)) = some (.error e) := by
      simp [ctorOutput, hsrc1]
    have h2 := finishRun_err s1 dst _ e hr1 ho
    have hsrcfin : (s1.mem.set dst (SlotSt.failed e)).getD src SlotSt.empty
        = SlotSt.live v := by
      rw [getD_set_ne _ _ _ _ _ (Ne.symm hsd)]
      exact hsrc1
    refine ⟨{ s1 with
        mem := s1.mem.set dst (.failed e),
        events := s1.events ++ [.ctorFailed dst e] }, ?_, rfl, hsrcfin, ?_, ?_⟩
    · simp only [execs, h1, h2]
    · show uninitSt ((s1.mem.set dst _).getD dst SlotSt.empty) = true
      rw [getD_set_self _ _ _ _ (by simpa using hdst)]
      rfl
    · rw [destroy_ok { s1 with
          mem := s1.mem.set dst (.failed e),
          events := s1.events ++ [.ctorFailed dst e] } src v hsrcfin]
      rfl

/-- Witness for claim C2 at a concrete input: both the successful and the
failing form of a move of the live value in slot 0 into slot 1. -/
theorem move_source_destroyed_after_construction_witness :
    ((none : Option Err) = none → ∃ s',
      execs { mem := [SlotSt.live { data := ['a'], slice := none }, SlotSt.empty],
              ctors := [(5, CtorK.moveFrom ⟨0⟩ none)], events := [] }
          [Op.beginRun 5 1, Op.finishRun 1] = some s'
      ∧ s'.events = [] ++ [Event.constructed 1, Event.destructed 0]
      ∧ slotAt s' 1 = SlotSt.live (repoint { data := ['a'], slice := none } 0 1)
      ∧ slotAt s' 0 = SlotSt.destroyed)
    ∧ (∀ e, (none : Option Err) = some e → ∃ s',
      execs { mem := [SlotSt.live { data := ['a'], slice := none }, SlotSt.empty],
              ctors := [(5, CtorK.moveFrom ⟨0⟩ none)], events := [] }
          [Op.beginRun 5 1, Op.finishRun 1] = some s'
      ∧ s'.events = [] ++ [Event.ctorFailed 1 e]
      ∧ slotAt s' 0 = SlotSt.live { data := ['a'], slice := none }
      ∧ uninitSt (slotAt s' 1) = true
      ∧ (exec s' (Op.destroy 0)).isSome = true) :=
  move_source_destroyed_after_construction
    { mem := [SlotSt.live { data := ['a'], slice := none }, SlotSt.empty],
      ctors := [(5, CtorK.moveFrom ⟨0⟩ none)], events := [] }
    5 0 1 { data := ['a'], slice := none } none
    (by decide) (by decide) (by decide) (by decide) (by decide)

/-- Claim C3: failure atomicity.  When a fallible constructor run against
an empty slot reports a typed failure, the slot afterwards is
uninitialized exactly as before the run began, every other slot is
untouched, and no destructor was invoked: the only new event is the typed
failure itself. -/
theorem try_ctor_failure_atomic (s : State) (c : Nat) (k : CtorK) (a : Addr) (e : Err)
    (hf : findCtor c s.ctors = some k)
    (ha : a < s.mem.length)
    (he : slotAt s a = SlotSt.empty)
    (hp : ctorPre s a k = true)
    (ho : ctorOutput s a k = some (.error e)) :
    ∃ s', execs s [Op.beginRun c a, Op.finishRun a] = some s'
      ∧ uninitSt (slotAt s' a) = true
      ∧ (∀ b, b ≠ a → slotAt s' b = slotAt s b)
      ∧ s'.events = s.events ++ [Event.ctorFailed a e]
      ∧ destructs s' = destructs s := by
  have h1 := beginRun_ok s c k a hf ha he hp
  set s1 : State := { s with mem := s.mem.set a (.running k),
                             ctors := dropCtor c s.ctors } with hs1def
  have hmem1 : ∀ b, b ≠ a → slotAt s1 b = slotAt s b := by
    intro b hb
    show (s.mem.set a _).getD b .empty = _
    rw [getD_set_ne _ _ _ _ _ hb]
    rfl
  have hr1 : slotAt s1 a = SlotSt.running k := getD_set_self s.mem a _ .empty ha
  have ho1 : ctorOutput s1 a k = some (.error e) := by
    rw [ctorOutput_congr s s1 a k hmem1 hp]
    exact ho
  have h2 := finishRun_err s1 a k e hr1 ho1
  refine ⟨{ s1 with
      mem := s1.mem.set a (.failed e),
      events := s1.events ++ [.ctorFailed a e] }, ?_, ?_, ?_, rfl, ?_⟩
  · simp only [execs, h1, h2]
  · show uninitSt ((s1.mem.set a _).getD a SlotSt.empty) = true
    rw [getD_set_self _ _ _ _ (by simpa using ha)]
    rfl
  · intro b hb
    show ((s1.mem.set a _).getD b SlotSt.empty) = _
    rw [getD_set_ne _ _ _ _ _ hb]
    exact hmem1 b hb
  · show destructs { s1 with
        mem := s1.mem.set a (.failed e),
        events := s1.events ++ [.ctorFailed a e] } = destructs s
    simp [destructs, List.filterMap_append]

/-- Witness for claim C3 at a concrete input: a fallible constructor that
reports error 7 when run against the single empty slot. -/
theorem try_ctor_failure_atomic_witness :
    ∃ s', execs { mem := [SlotSt.empty], ctors := [(0, CtorK.fails 7)], events := [] }
        [Op.beginRun 0 0, Op.finishRun 0] = some s'
      ∧ uninitSt (slotAt s' 0) = true
      ∧ (∀ b, b ≠ 0 →
          slotAt s' b = slotAt { mem := [SlotSt.empty],
                                 ctors := [(0, CtorK.fails 7)], events := [] } b)
      ∧ s'.events = [] ++ [Event.ctorFailed 0 7]
      ∧ destructs s' = destructs { mem := [SlotSt.empty],
                                   ctors := [(0, CtorK.fails 7)], events := [] } :=
  try_ctor_failure_atomic
    { mem := [SlotSt.empty], ctors := [(0, CtorK.fails 7)], events := [] }
    0 (CtorK.fails 7) 0 7 (by decide) (by decide) (by decide) (by decide) (by rfl)

/-- Claim C4: running a constructor into a valid empty slot yields exactly
one live value: the destination becomes live and no other slot changes
(apart from the source of a move, which is destroyed), and for a non-move
constructor the number of live values grows by exactly one.  The run
consumes the constructor: it is no longer available afterwards, and any
attempt to run it again is refused, with no runtime check on the slot
needed. -/
theorem ctor_runs_once_one_value (s : State) (c : Nat) (k : CtorK) (a : Addr) (v : Val)
    (hf : findCtor c s.ctors = some k)
    (ha : a < s.mem.length)
    (he : slotAt s a = SlotSt.empty)
    (hp : ctorPre s a k = true)
    (ho : ctorOutput s a k = some (.ok v)) :
    ∃ s', execs s [Op.beginRun c a, Op.finishRun a] = some s'
      ∧ slotAt s' a = SlotSt.live v
      ∧ (∀ b, b ≠ a → moveSrc k ≠ some b → slotAt s' b = slotAt s b)
      ∧ findCtor c s'.ctors = none
      ∧ (∀ a', exec s' (Op.beginRun c a') = none)
      ∧ (moveSrc k = none → liveCount s' = liveCount s + 1) := by
  have h1 := beginRun_ok s c k a hf ha he hp
  set s1 : State := { s with mem := s.mem.set a (.running k),
                             ctors := dropCtor c s.ctors } with hs1def
  have hmem1 : ∀ b, b ≠ a → slotAt s1 b = slotAt s b := by
    intro b hb
    show (s.mem.set a _).getD b .empty = _
    rw [getD_set_ne _ _ _ _ _ hb]
    rfl
  have hr1 : slotAt s1 a = SlotSt.running k := getD_set_self s.mem a _ .empty ha
  have ho1 : ctorOutput s1 a k = some (.ok v) := by
    rw [ctorOutput_congr s s1 a k hmem1 hp]
    exact ho
  have hdropped : findCtor c (dropCtor c s.ctors) = none := findCtor_dropCtor_self c s.ctors
  rcases hmk : moveSrc k with _ | m
  · have h2 := finishRun_ok_plain s1 a k v hr1 ho1 hmk
    refine ⟨{ s1 with
        mem := s1.mem.set a (.live v),
        events := s1.events ++ [.constructed a] }, ?_, ?_, ?_, hdropped, ?_, ?_⟩
    · simp only [execs, h1, h2]
    · show (s1.mem.set a _).getD a SlotSt.empty = _
      exact getD_set_self _ _ _ _ (by simpa using ha)
    · intro b hb _
      show (s1.mem.set a _).getD b SlotSt.empty = _
      rw [getD_set_ne _ _ _ _ _ hb]
      exact hmem1 b hb
    · intro a'
      simp [exec, hdropped]
    · intro _
      show ((s.mem.set a (SlotSt.running k)).set a (SlotSt.live v)).countP _
          = s.mem.countP _ + 1
      rw [List.set_set]
      exact liveCount_set_live s.mem a v ha he
  · obtain ⟨hh, fe, hk⟩ : ∃ hh fe, k = CtorK.moveFrom hh fe := by
      cases k <;> simp [moveSrc] at hmk
      exact ⟨_, _, rfl⟩
    subst hk
    have hmaddr : hh.addr = m := by
      simpa [moveSrc] using hmk
    have hma : hh.addr ≠ a := by
      have := hp
      simp only [ctorPre, Bool.and_eq_true, bne_iff_ne, ne_eq] at this
      exact this.2
    have h2 := finishRun_ok_move s1 a hh fe v hr1 ho1
    refine ⟨{ s1 with
        mem := (s1.mem.set a (.live v)).set hh.addr .destroyed,
        events := s1.events ++ [.constructed a, .destructed hh.addr] }, ?_, ?_, ?_,
        hdropped, ?_, ?_⟩
    · simp only [execs, h1, h2]
    · show ((s1.mem.set a _).set hh.addr _).getD a SlotSt.empty = _
      rw [getD_set_ne _ _ _ _ _ (Ne.symm hma)]
      exact getD_set_self _ _ _ _ (by simpa using ha)
    · intro b hb hbm
      have hbm' : b ≠ hh.addr := by
        intro hbe
        exact hbm (by rw [← hmaddr, hbe])
      show ((s1.mem.set a _).set hh.addr _).getD b SlotSt.empty = _
      rw [getD_set_ne _ _ _ _ _ hbm', getD_set_ne _ _ _ _ _ hb]
      exact hmem1 b hb
    · intro a'
      simp [exec, hdropped]
    · intro hmn
      rw [hmn] at hmk
      cases hmk

/-- Witness for claim C4 at a concrete input: running the plain value
constructor number 3 into the empty slot 0. -/
theorem ctor_runs_once_one_value_witness :
    ∃ s', execs { mem := [SlotSt.empty],
                  ctors := [(3, CtorK.ret { data := ['x'], slice := none })], events := [] }
        [Op.beginRun 3 0, Op.finishRun 0] = some s'
      ∧ slotAt s' 0 = SlotSt.live { data := ['x'], slice := none }
      ∧ (∀ b, b ≠ 0 → moveSrc (CtorK.ret { data := ['x'], slice := none }) ≠ some b →
          slotAt s' b = slotAt { mem := [SlotSt.empty],
                                 ctors := [(3, CtorK.ret { data := ['x'], slice := none })],
                                 events := [] } b)
      ∧ findCtor 3 s'.ctors = none
      ∧ (∀ a', exec s' (Op.beginRun 3 a') = none)
      ∧ (moveSrc (CtorK.ret { data := ['x'], slice := none }) = none →
          liveCount s' = liveCount { mem := [SlotSt.empty],
                                     ctors := [(3, CtorK.ret { data := ['x'], slice := none })],
                                     events := [] } + 1) :=
  ctor_runs_once_one_value
    { mem := [SlotSt.empty],
      ctors := [(3, CtorK.ret { data := ['x'], slice := none })], events := [] }
    3 (CtorK.ret { data := ['x'], slice := none }) 0 { data := ['x'], slice := none }
    (by decide) (by decide) (by decide) (by decide) (by rfl)

/-- Claim C5: copy-construction from a non-owning reference to a live
value yields, in a fresh slot, a value equal in content to the source (and
literally equal when the source has no internal self-pointer), leaves the
source untouched, and the two are independent afterwards: mutating the
copy never affects the source. -/
theorem copy_ctor_independent_equal (s : State) (c : Nat) (src dst : Addr) (v : Val)
    (hf : findCtor c s.ctors = some (CtorK.copyFrom ⟨src⟩))
    (hlv : slotAt s src = SlotSt.live v)
    (hdst : dst < s.mem.length) (hsd : dst ≠ src)
    (hedst : slotAt s dst = SlotSt.empty) :
    ∃ s', execs s [Op.beginRun c dst, Op.finishRun dst] = some s'
      ∧ slotAt s' dst = SlotSt.live (repoint v src dst)
      ∧ (repoint v src dst).data = v.data
      ∧ (v.slice = none → repoint v src dst = v)
      ∧ slotAt s' src = SlotSt.live v
      ∧ (∀ d', ∃ s'', exec s' (Op.setData dst d') = some s''
          ∧ slotAt s'' src = SlotSt.live v) := by
  have hp : ctorPre s dst (.copyFrom ⟨src⟩) = true := by
    simp [ctorPre, hlv, isLive, Ne.symm hsd]
  have h1 := beginRun_ok s c (.copyFrom ⟨src⟩) dst hf hdst hedst hp
  set s1 : State := { s with mem := s.mem.set dst (.running (.copyFrom ⟨src⟩)),
                             ctors := dropCtor c s.ctors } with hs1def
  have hr1 : slotAt s1 dst = SlotSt.running (.copyFrom ⟨src⟩) :=
    getD_set_self s.mem dst _ .empty hdst
  have hsrc1 : slotAt s1 src = SlotSt.live v := by
    show (s.mem.set dst _).getD src .empty = _
    rw [getD_set_ne _ _ _ _ _ (Ne.symm hsd)]
    exact hlv
  have ho1 : ctorOutput s1 dst (.copyFrom ⟨src⟩) = some (.ok (repoint v src dst)) := by
    simp [ctorOutput, hsrc1]
  have h2 := finishRun_ok_plain s1 dst (.copyFrom ⟨src⟩) _ hr1 ho1 rfl
  have hdstlive : (s1.mem.set dst (SlotSt.live (repoint v src dst))).getD dst SlotSt.empty
      = SlotSt.live (repoint v src dst) :=
    getD_set_self _ _ _ _ (by simpa using hdst)
  have hsrclive : (s1.mem.set dst (SlotSt.live (repoint v src dst))).getD src SlotSt.empty
      = SlotSt.live v := by
    rw [getD_set_ne _ _ _ _ _ (Ne.symm hsd)]
    exact hsrc1
  refine ⟨{ s1 with
      mem := s1.mem.set dst (.live (repoint v src dst)),
      events := s1.events ++ [.constructed dst] }, ?_, hdstlive, rfl, ?_, hsrclive, ?_⟩
  · simp only [execs, h1, h2]
  · intro hn
    cases v with
    | mk dt sl => simp_all [repoint]
  · intro d'
    have h3 := setData_ok { s1 with
        mem := s1.mem.set dst (.live (repoint v src dst)),
        events := s1.events ++ [.constructed dst] } dst (repoint v src dst) d' hdstlive
    refine ⟨_, h3, ?_⟩
    show ((s1.mem.set dst _).set dst _).getD src SlotSt.empty = _
    rw [getD_set_ne _ _ _ _ _ (Ne.symm hsd)]
    exact hsrclive

/-- Witness for claim C5 at a concrete input: copying the live value of
slot 0 into the fresh slot 1 and then mutating the copy. -/
theorem copy_ctor_independent_equal_witness :
    ∃ s', execs { mem := [SlotSt.live { data := ['a', 'b'], slice := none }, SlotSt.empty],
                  ctors := [(2, CtorK.copyFrom ⟨0⟩)], events := [] }
        [Op.beginRun 2 1, Op.finishRun 1] = some s'
      ∧ slotAt s' 1 = SlotSt.live (repoint { data := ['a', 'b'], slice := none } 0 1)
      ∧ (repoint { data := ['a', 'b'], slice := none } 0 1).data
          = Val.data { data := ['a', 'b'], slice := none }
      ∧ (Val.slice { data := ['a', 'b'], slice := none } = none →
          repoint { data := ['a', 'b'], slice := none } 0 1
            = { data := ['a', 'b'], slice := none })
      ∧ slotAt s' 0 = SlotSt.live { data := ['a', 'b'], slice := none }
      ∧ (∀ d', ∃ s'', exec s' (Op.setData 1 d') = some s''
          ∧ slotAt s'' 0 = SlotSt.live { data := ['a', 'b'], slice := none }) :=
  copy_ctor_independent_equal
    { mem := [SlotSt.live { data := ['a', 'b'], slice := none }, SlotSt.empty],
      ctors := [(2, CtorK.copyFrom ⟨0⟩)], events := [] }
    2 0 1 { data := ['a', 'b'], slice := none }
    (by decide) (by decide) (by decide) (by decide) (by decide)

/-- Allocating a fresh slot does not change the contents of any address:
the new slot reads empty, exactly as unallocated storage already did. -/
theorem slotAt_alloc (s : State) (a : Addr) :
    slotAt { s with mem := s.mem ++ [SlotSt.empty] } a = slotAt s a := by
  show (s.mem ++ [SlotSt.empty]).getD a .empty = s.mem.getD a .empty
  rw [getD_append_single]
  by_cases hl : a < s.mem.length
  · simp [hl]
  · by_cases he : a = s.mem.length
    · rw [getD_of_length_le s.mem a .empty (Nat.le_of_eq he.symm)]
      simp [hl, he]
    · rw [getD_of_length_le s.mem a .empty (Nat.le_of_not_lt hl)]
      simp [hl, he]

/-- Full inversion of the one-step interpreter: every successful step is
one of the seven listed shapes. -/
theorem exec_cases (s : State) (o : Op) (s' : State) (hex : exec s o = some s') :
    (o = Op.alloc ∧ s' = { s with mem := s.mem ++ [.empty] })
    ∨ (∃ c a0 k, o = Op.beginRun c a0 ∧ findCtor c s.ctors = some k
        ∧ a0 < s.mem.length ∧ slotAt s a0 = SlotSt.empty ∧ ctorPre s a0 k = true
        ∧ s' = { s with mem := s.mem.set a0 (.running k), ctors := dropCtor c s.ctors })
    ∨ (∃ a0 k v, o = Op.finishRun a0 ∧ slotAt s a0 = SlotSt.running k
        ∧ ctorOutput s a0 k = some (.ok v) ∧ moveSrc k = none
        ∧ s' = { s with mem := s.mem.set a0 (.live v),
                        events := s.events ++ [.constructed a0] })
    ∨ (∃ a0 hh fe v w, o = Op.finishRun a0
        ∧ slotAt s a0 = SlotSt.running (CtorK.moveFrom hh fe)
        ∧ ctorOutput s a0 (.moveFrom hh fe) = some (.ok v)
        ∧ slotAt s hh.addr = SlotSt.live w
        ∧ s' = { s with mem := (s.mem.set a0 (.live v)).set hh.addr .destroyed,
                        events := s.events ++ [.constructed a0, .destructed hh.addr] })
    ∨ (∃ a0 k e, o = Op.finishRun a0 ∧ slotAt s a0 = SlotSt.running k
        ∧ ctorOutput s a0 k = some (.error e)
        ∧ s' = { s with mem := s.mem.set a0 (.failed e),
                        events := s.events ++ [.ctorFailed a0 e] })
    ∨ (∃ a0 v, o = Op.destroy a0 ∧ slotAt s a0 = SlotSt.live v
        ∧ s' = { s with mem := s.mem.set a0 .destroyed,
                        events := s.events ++ [.destructed a0] })
    ∨ (∃ a0 d v, o = Op.setData a0 d ∧ slotAt s a0 = SlotSt.live v
        ∧ s' = { s with mem := s.mem.set a0 (.live { data := d, slice := v.slice }) }) := by
  cases o with
  | alloc =>
    left
    simp only [exec] at hex
    exact ⟨rfl, (Option.some.inj hex).symm⟩
  | beginRun c a0 =>
    right; left
    simp only [exec] at hex
    split at hex
    · cases hex
    next k hk =>
      split at hex
      next hg =>
        exact ⟨c, a0, k, rfl, hk, hg.1, hg.2.1, hg.2.2, (Option.some.inj hex).symm⟩
      next => cases hex
  | finishRun a0 =>
    right; right
    simp only [exec] at hex
    split at hex
    next k hk =>
      split at hex
      next v ho =>
        split at hex
        next hh fe =>
          right; left
          have hso : ∃ w, slotAt s hh.addr = SlotSt.live w := by
            simp only [ctorOutput] at ho
            cases hsl : slotAt s hh.addr <;> rw [hsl] at ho
            · cases ho
            · cases ho
            · exact ⟨_, rfl⟩
            · cases ho
            · cases ho
          obtain ⟨w, hw⟩ := hso
          refine ⟨a0, hh, fe, v, w, rfl, hk, ho, hw, ?_⟩
          have := (Option.some.inj hex).symm
          rw [this]
          simp [List.append_assoc]
        next hnm =>
          left
          refine ⟨a0, k, v, rfl, hk, ho, ?_, (Option.some.inj hex).symm⟩
          cases k with
          | moveFrom hh fe => exact absurd rfl (hnm hh fe)
          | ret _ => rfl
          | selfRef _ => rfl
          | fails _ => rfl
          | copyFrom _ => rfl
      next e ho =>
        right; right; left
        exact ⟨a0, k, e, rfl, hk, ho, (Option.some.inj hex).symm⟩
      next => cases hex
    next => cases hex
  | destroy a0 =>
    right; right; right; right; right; left
    simp only [exec] at hex
    split at hex
    next v hv =>
      exact ⟨a0, v, rfl, hv, (Option.some.inj hex).symm⟩
    next => cases hex
  | setData a0 d =>
    right; right; right; right; right; right
    simp only [exec] at hex
    split at hex
    next v hv =>
      exact ⟨a0, d, v, rfl, hv, (Option.some.inj hex).symm⟩
    next => cases hex

/-- Claim C8: every operation of the system moves every slot only along
the spec's per-slot state machine: empty to running, running to live or
failed, live to destroyed, or staying put — so failed and destroyed are
terminal and no other transition is reachable; moreover a destructor only
ever runs on a slot that was live before the step. -/
theorem slot_state_machine (s : State) (o : Op) (s' : State)
    (hex : exec s o = some s') :
    (∀ a, AllowedStep (phase (slotAt s a)) (phase (slotAt s' a)))
    ∧ (∀ a, Event.destructed a ∈ s'.events →
        Event.destructed a ∈ s.events ∨ phase (slotAt s a) = Phase.liveP) := by
  rcases exec_cases s o s' hex with
    ⟨_, hs'⟩ | ⟨c, a0, k, _, hk, hlen, hemp, hpre, hs'⟩ |
    ⟨a0, k, v, _, hrun, ho, hms, hs'⟩ | ⟨a0, hh, fe, v, w, _, hrun, ho, hsl, hs'⟩ |
    ⟨a0, k, e, _, hrun, ho, hs'⟩ | ⟨a0, v, _, hlv, hs'⟩ | ⟨a0, d, v, _, hlv, hs'⟩
  · subst hs'
    refine ⟨fun a => Or.inl (congrArg phase (slotAt_alloc s a).symm), fun a hm => Or.inl hm⟩
  · subst hs'
    constructor
    · intro b
      by_cases hb : b = a0
      · subst hb
        show AllowedStep (phase (slotAt s b)) (phase ((s.mem.set b _).getD b .empty))
        rw [getD_set_self _ _ _ _ hlen, hemp]
        exact Or.inr (Or.inl ⟨rfl, rfl⟩)
      · refine Or.inl (congrArg phase ?_)
        show slotAt s b = (s.mem.set a0 _).getD b .empty
        rw [getD_set_ne _ _ _ _ _ hb]
        rfl
    · exact fun a hm => Or.inl hm
  · subst hs'
    have hlen : a0 < s.mem.length :=
      lt_length_of_slot_ne_empty s a0 (by rw [hrun]; intro hc; cases hc)
    constructor
    · intro b
      by_cases hb : b = a0
      · subst hb
        show AllowedStep (phase (slotAt s b)) (phase ((s.mem.set b _).getD b .empty))
        rw [getD_set_self _ _ _ _ hlen, hrun]
        exact Or.inr (Or.inr (Or.inl ⟨rfl, Or.inl rfl⟩))
      · refine Or.inl (congrArg phase ?_)
        show slotAt s b = (s.mem.set a0 _).getD b .empty
        rw [getD_set_ne _ _ _ _ _ hb]
        rfl
    · intro a hm
      rcases List.mem_append.mp hm with hm' | hm'
      · exact Or.inl hm'
      · simp at hm'
  · subst hs'
    have hlen : a0 < s.mem.length :=
      lt_length_of_slot_ne_empty s a0 (by rw [hrun]; intro hc; cases hc)
    have hlenh : hh.addr < s.mem.length :=
      lt_length_of_slot_ne_empty s hh.addr (by rw [hsl]; intro hc; cases hc)
    have hna : a0 ≠ hh.addr := by
      intro hcq
      rw [← hcq, hrun] at hsl
      cases hsl
    constructor
    · intro b
      by_cases hbh : b = hh.addr
      · subst hbh
        show AllowedStep (phase (slotAt s hh.addr))
          (phase (((s.mem.set a0 _).set hh.addr _).getD hh.addr .empty))
        rw [getD_set_self _ _ _ _ (by simpa using hlenh), hsl]
        exact Or.inr (Or.inr (Or.inr ⟨rfl, rfl⟩))
      · by_cases hb : b = a0
        · subst hb
          show AllowedStep (phase (slotAt s b))
            (phase (((s.mem.set b _).set hh.addr _).getD b .empty))
          rw [getD_set_ne _ _ _ _ _ hbh, getD_set_self _ _ _ _ hlen, hrun]
          exact Or.inr (Or.inr (Or.inl ⟨rfl, Or.inl rfl⟩))
        · refine Or.inl (congrArg phase ?_)
          show slotAt s b = ((s.mem.set a0 _).set hh.addr _).getD b .empty
          rw [getD_set_ne _ _ _ _ _ hbh, getD_set_ne _ _ _ _ _ hb]
          rfl
    · intro a hm
      rcases List.mem_append.mp hm with hm' | hm'
      · exact Or.inl hm'
      · simp only [List.mem_cons, List.mem_singleton] at hm'
        rcases hm' with hm' | hm' | hm'
        · cases hm'
        · right
          have hah : a = hh.addr := by
            injection hm'
          rw [hah, hsl]
          rfl
        · cases hm'
  · subst hs'
    have hlen : a0 < s.mem.length :=
      lt_length_of_slot_ne_empty s a0 (by rw [hrun]; intro hc; cases hc)
    constructor
    · intro b
      by_cases hb : b = a0
      · subst hb
        show AllowedStep (phase (slotAt s b)) (phase ((s.mem.set b _).getD b .empty))
        rw [getD_set_self _ _ _ _ hlen, hrun]
        exact Or.inr (Or.inr (Or.inl ⟨rfl, Or.inr rfl⟩))
      · refine Or.inl (congrArg phase ?_)
        show slotAt s b = (s.mem.set a0 _).getD b .empty
        rw [getD_set_ne _ _ _ _ _ hb]
        rfl
    · intro a hm
      rcases List.mem_append.mp hm with hm' | hm'
      · exact Or.inl hm'
      · simp at hm'
  · subst hs'
    have hlen : a0 < s.mem.length :=
      lt_length_of_slot_ne_empty s a0 (by rw [hlv]; intro hc; cases hc)
    constructor
    · intro b
      by_cases hb : b = a0
      · subst hb
        show AllowedStep (phase (slotAt s b)) (phase ((s.mem.set b _).getD b .empty))
        rw [getD_set_self _ _ _ _ hlen, hlv]
        exact Or.inr (Or.inr (Or.inr ⟨rfl, rfl⟩))
      · refine Or.inl (congrArg phase ?_)
        show slotAt s b = (s.mem.set a0 _).getD b .empty
        rw [getD_set_ne _ _ _ _ _ hb]
        rfl
    · intro a hm
      rcases List.mem_append.mp hm with hm' | hm'
      · exact Or.inl hm'
      · right
        have haa : a = a0 := by
          simp only [List.mem_singleton] at hm'
          injection hm'
        rw [haa, hlv]
        rfl
  · subst hs'
    have hlen : a0 < s.mem.length :=
      lt_length_of_slot_ne_empty s a0 (by rw [hlv]; intro hc; cases hc)
    constructor
    · intro b
      by_cases hb : b = a0
      · subst hb
        refine Or.inl ?_
        show phase (slotAt s b) = phase ((s.mem.set b _).getD b .empty)
        rw [getD_set_self _ _ _ _ hlen, hlv]
        rfl
      · refine Or.inl (congrArg phase ?_)
        show slotAt s b = (s.mem.set a0 _).getD b .empty
        rw [getD_set_ne _ _ _ _ _ hb]
        rfl
    · exact fun a hm => Or.inl hm

/-- Witness for claim C8 at a concrete input: destroying the live value in
slot 0 is an allowed transition and its destructor ran on a live slot. -/
theorem slot_state_machine_witness :
    (∀ a, AllowedStep
        (phase (slotAt { mem := [SlotSt.live { data := [], slice := none }],
                         ctors := [], events := [] } a))
        (phase (slotAt { mem := [SlotSt.destroyed], ctors := [],
                         events := [Event.destructed 0] } a)))
    ∧ (∀ a, Event.destructed a ∈
          State.events { mem := [SlotSt.destroyed], ctors := [],
                         events := [Event.destructed 0] } →
        Event.destructed a ∈
          State.events { mem := [SlotSt.live { data := [], slice := none }],
                         ctors := [], events := [] }
        ∨ phase (slotAt { mem := [SlotSt.live { data := [], slice := none }],
                          ctors := [], events := [] } a) = Phase.liveP) :=
  slot_state_machine
    { mem := [SlotSt.live { data := [], slice := none }], ctors := [], events := [] }
    (Op.destroy 0)
    { mem := [SlotSt.destroyed], ctors := [], events := [Event.destructed 0] }
    (by decide)

/-- Claim C9: a live value can only be destroyed by an explicit destroy of
its own slot or by completing a move-construction whose constructor was
generated from an owning handle (OwnHandle) designating that slot.  The
constructor generated from a non-owning reference (Ref, a different type)
never destroys its source, so a non-owning reference is never accepted as
the source of a move; the interface of the move constructor enforces this
by type, with no runtime check. -/
theorem move_destroy_requires_owning_handle (s : State) (o : Op) (s' : State)
    (a : Addr) (v : Val)
    (hex : exec s o = some s') (hlv : slotAt s a = SlotSt.live v)
    (hd : slotAt s' a = SlotSt.destroyed) :
    o = Op.destroy a
    ∨ ∃ b hh fe, o = Op.finishRun b
        ∧ slotAt s b = SlotSt.running (CtorK.moveFrom hh fe) ∧ hh.addr = a := by
  have hlv2 : s.mem.getD a SlotSt.empty = SlotSt.live v := hlv
  rcases exec_cases s o s' hex with
    ⟨ho', hs'⟩ | ⟨c, a0, k, ho', hk, hlen, hemp, hpre, hs'⟩ |
    ⟨a0, k, v', ho', hrun, ho, hms, hs'⟩ | ⟨a0, hh, fe, v', w, ho', hrun, ho, hsl, hs'⟩ |
    ⟨a0, k, e, ho', hrun, ho, hs'⟩ | ⟨a0, v', ho', hlv', hs'⟩ | ⟨a0, d, v', ho', hlv', hs'⟩
  · subst hs'
    rw [slotAt_alloc, hlv] at hd
    cases hd
  · subst hs'
    by_cases hb : a = a0
    · rw [hb, hemp] at hlv
      cases hlv
    · have hd' : (s.mem.set a0 (SlotSt.running k)).getD a SlotSt.empty
          = SlotSt.destroyed := hd
      rw [getD_set_ne _ _ _ _ _ hb, hlv2] at hd'
      cases hd'
  · subst hs'
    by_cases hb : a = a0
    · rw [hb, hrun] at hlv
      cases hlv
    · have hd' : (s.mem.set a0 (SlotSt.live v')).getD a SlotSt.empty
          = SlotSt.destroyed := hd
      rw [getD_set_ne _ _ _ _ _ hb, hlv2] at hd'
      cases hd'
  · subst hs'
    by_cases hbh : a = hh.addr
    · exact Or.inr ⟨a0, hh, fe, ho', hrun, hbh.symm⟩
    · by_cases hb : a = a0
      · rw [hb, hrun] at hlv
        cases hlv
      · have hd' : ((s.mem.set a0 (SlotSt.live v')).set hh.addr
            SlotSt.destroyed).getD a SlotSt.empty = SlotSt.destroyed := hd
        rw [getD_set_ne _ _ _ _ _ hbh, getD_set_ne _ _ _ _ _ hb, hlv2] at hd'
        cases hd'
  · subst hs'
    by_cases hb : a = a0
    · rw [hb, hrun] at hlv
      cases hlv
    · have hd' : (s.mem.set a0 (SlotSt.failed e)).getD a SlotSt.empty
          = SlotSt.destroyed := hd
      rw [getD_set_ne _ _ _ _ _ hb, hlv2] at hd'
      cases hd'
  · subst hs'
    by_cases hb : a = a0
    · rw [ho', hb]
      exact Or.inl rfl
    · have hd' : (s.mem.set a0 SlotSt.destroyed).getD a SlotSt.empty
          = SlotSt.destroyed := hd
      rw [getD_set_ne _ _ _ _ _ hb, hlv2] at hd'
      cases hd'
  · subst hs'
    by_cases hb : a = a0
    · have hlen : a0 < s.mem.length :=
        lt_length_of_slot_ne_empty s a0 (by rw [hlv']; intro hc; cases hc)
      have hd' : (s.mem.set a0 (SlotSt.live { data := d, slice := v'.slice })).getD
          a SlotSt.empty = SlotSt.destroyed := hd
      rw [hb, getD_set_self _ _ _ _ hlen] at hd'
      cases hd'
    · have hd' : (s.mem.set a0 (SlotSt.live { data := d, slice := v'.slice })).getD
          a SlotSt.empty = SlotSt.destroyed := hd
      rw [getD_set_ne _ _ _ _ _ hb, hlv2] at hd'
      cases hd'

/-- Witness for claim C9 at a concrete input: the explicit destruction of
the live value in slot 0. -/
theorem move_destroy_requires_owning_handle_witness :
    Op.destroy 0 = Op.destroy 0
    ∨ ∃ b hh fe, Op.destroy 0 = Op.finishRun b
        ∧ slotAt { mem := [SlotSt.live { data := [], slice := none }],
                   ctors := [], events := [] } b
            = SlotSt.running (CtorK.moveFrom hh fe) ∧ OwnHandle.addr hh = 0 :=
  move_destroy_requires_owning_handle
    { mem := [SlotSt.live { data := [], slice := none }], ctors := [], events := [] }
    (Op.destroy 0)
    { mem := [SlotSt.destroyed], ctors := [], events := [Event.destructed 0] }
    0 { data := [], slice := none }
    (by decide) (by decide) (by decide)

/-- Claim C7: when the allocator cannot obtain storage for the heap
emplacement target, the failure is reported to the caller as an error
value (no abort), the constructor is never run and stays available, and
the state is left entirely unchanged: no side effects. -/
theorem emplace_alloc_failure_reported (s : State) (c : Nat) :
    emplaceNew s c false = (s, Except.error ())
    ∧ (emplaceNew s c false).1 = s
    ∧ findCtor c (emplaceNew s c false).1.ctors = findCtor c s.ctors
    ∧ (emplaceNew s c false).1.events = s.events :=
  ⟨rfl, rfl, rfl, rfl⟩

/-- Emplacing a self-referential constructor into a fresh stack slot
appends a live value whose internal pointer is the new slot's own
address. -/
theorem emplaceFresh_selfRef (s : State) (c : Nat) (d : List Char)
    (hf : findCtor c s.ctors = some (CtorK.selfRef d)) :
    emplaceFresh s c = some
      ({ mem := s.mem ++ [.live { data := d, slice := some s.mem.length }],
         ctors := dropCtor c s.ctors,
         events := s.events ++ [.constructed s.mem.length] }, s.mem.length) := by
  have h0 : exec s .alloc = some { s with mem := s.mem ++ [.empty] } := rfl
  set n := s.mem.length with hn
  set s1 : State := { s with mem := s.mem ++ [.empty] } with hs1
  have hf1 : findCtor c s1.ctors = some (CtorK.selfRef d) := hf
  have hlen1 : n < s1.mem.length := by
    show n < (s.mem ++ [SlotSt.empty]).length
    simp [hn]
  have hemp1 : slotAt s1 n = SlotSt.empty := by
    show (s.mem ++ [SlotSt.empty]).getD n SlotSt.empty = SlotSt.empty
    rw [getD_append_single]
    simp [hn]
  have h1 := beginRun_ok s1 c (.selfRef d) n hf1 hlen1 hemp1 rfl
  set s2 : State := { s1 with mem := s1.mem.set n (.running (.selfRef d)),
                              ctors := dropCtor c s1.ctors } with hs2
  have hm2 : s2.mem = s.mem ++ [SlotSt.running (CtorK.selfRef d)] := by
    show (s.mem ++ [SlotSt.empty]).set n _ = _
    exact set_append_single s.mem SlotSt.empty _
  have hr2 : slotAt s2 n = SlotSt.running (.selfRef d) := by
    show s2.mem.getD n .empty = _
    rw [hm2, getD_append_single]
    simp [hn]
  have ho2 : ctorOutput s2 n (.selfRef d) = some (.ok { data := d, slice := some n }) := rfl
  have h2 := finishRun_ok_plain s2 n (.selfRef d) _ hr2 ho2 rfl
  simp only [emplaceFresh, emplaceOps, execs, ← hn, h0, h1, h2]
  rw [show s2.mem.set n (SlotSt.live { data := d, slice := some n })
      = s.mem ++ [SlotSt.live { data := d, slice := some n }] from by
    rw [hm2]
    exact set_append_single s.mem _ _]

/-- Claim C10: moving or rebinding the handle returned by stack
emplacement does not relocate the emplaced value: the moved handle
designates the same slot, and dereferencing through it still finds the
value's internal self-pointer equal to the address of its own slot, with
the content unchanged. -/
theorem handle_move_keeps_value_address (s : State) (c : Nat) (d : List Char)
    (hf : findCtor c s.ctors = some (CtorK.selfRef d)) :
    ∃ s', emplaceFresh s c = some (s', (moveHandle { addr := s.mem.length }).addr)
      ∧ moveHandle { addr := s.mem.length } = ({ addr := s.mem.length } : StackBox)
      ∧ derefSlice s' (moveHandle { addr := s.mem.length })
          = some (some ((moveHandle { addr := s.mem.length }).addr))
      ∧ derefData s' (moveHandle { addr := s.mem.length }) = some d := by
  have hsl : slotAt
      { mem := s.mem ++ [SlotSt.live { data := d, slice := some s.mem.length }],
        ctors := dropCtor c s.ctors,
        events := s.events ++ [Event.constructed s.mem.length] } s.mem.length
      = SlotSt.live { data := d, slice := some s.mem.length } := by
    show (s.mem ++ [_]).getD s.mem.length .empty = _
    rw [getD_append_single]
    simp
  refine ⟨_, emplaceFresh_selfRef s c d hf, rfl, ?_, ?_⟩
  · show derefSlice _ { addr := s.mem.length } = some (some s.mem.length)
    unfold derefSlice
    rw [hsl]
  · show derefData _ { addr := s.mem.length } = some d
    unfold derefData
    rw [hsl]

/-- Witness for claim C10 at a concrete input: emplacing a
self-referential value holding the string hi into a fresh slot of an
empty memory and moving the returned handle. -/
theorem handle_move_keeps_value_address_witness :
    ∃ s', emplaceFresh { mem := [], ctors := [(0, CtorK.selfRef ['h', 'i'])],
                         events := [] } 0
        = some (s', (moveHandle { addr := 0 }).addr)
      ∧ moveHandle { addr := 0 } = ({ addr := 0 } : StackBox)
      ∧ derefSlice s' (moveHandle { addr := 0 })
          = some (some ((moveHandle { addr := 0 }).addr))
      ∧ derefData s' (moveHandle { addr := 0 }) = some ['h', 'i'] :=
  handle_move_keeps_value_address
    { mem := [], ctors := [(0, CtorK.selfRef ['h', 'i'])], events := [] }
    0 ['h', 'i'] (by decide)

theorem getD_append_left {α} : ∀ (l l' : List α) (a : Nat) (d : α), a < l.length →
    (l ++ l').getD a d = l.getD a d
  | [], _, _, _, h => absurd h (by simp)
  | _ :: _, _, 0, _, _ => rfl
  | _ :: l, l', a + 1, d, h => getD_append_left l l' a d (Nat.lt_of_succ_lt_succ h)

theorem getD_append_right {α} : ∀ (l l' : List α) (a : Nat) (d : α), l.length ≤ a →
    (l ++ l').getD a d = l'.getD (a - l.length) d
  | [], _, _, _, _ => by simp
  | _ :: _, _, 0, _, h => by simp at h
  | _ :: l, l', a + 1, d, h => by
    have ih := getD_append_right l l' a d (Nat.le_of_succ_le_succ h)
    simpa [List.getD, Nat.succ_sub_succ] using ih

theorem getD_map_live : ∀ (ps : List (Nat × Val)) (i : Nat), i < ps.length →
    ∃ v, (ps.map (fun p => SlotSt.live p.2)).getD i SlotSt.empty = SlotSt.live v
  | p :: _, 0, _ => ⟨p.2, rfl⟩
  | _ :: ps, i + 1, h => getD_map_live ps i (Nat.lt_of_succ_lt_succ h)

/-- Consuming a list of constructors leaves a constructor outside the list
available unchanged. -/
theorem findCtor_dropCtors_not_mem (c : Nat) : ∀ (cs : List Nat)
    (l : List (Nat × CtorK)), c ∉ cs →
    findCtor c (dropCtors cs l) = findCtor c l
  | [], l, _ => rfl
  | c' :: cs, l, hn => by
    have hne : c ≠ c' := fun he => hn (he ▸ List.mem_cons_self c' cs)
    show findCtor c (dropCtors cs (dropCtor c' l)) = _
    rw [findCtor_dropCtors_not_mem c cs (dropCtor c' l)
        (fun hm => hn (List.mem_cons_of_mem c' hm))]
    exact findCtor_dropCtor_ne c' c hne l

/-- Emplacing a plain value constructor into a fresh stack slot appends
the live value. -/
theorem emplaceFresh_ret (s : State) (c : Nat) (v : Val)
    (hf : findCtor c s.ctors = some (CtorK.ret v)) :
    emplaceFresh s c = some
      ({ mem := s.mem ++ [.live v],
         ctors := dropCtor c s.ctors,
         events := s.events ++ [.constructed s.mem.length] }, s.mem.length) := by
  have h0 : exec s .alloc = some { s with mem := s.mem ++ [.empty] } := rfl
  set n := s.mem.length with hn
  set s1 : State := { s with mem := s.mem ++ [.empty] } with hs1
  have hf1 : findCtor c s1.ctors = some (CtorK.ret v) := hf
  have hlen1 : n < s1.mem.length := by
    show n < (s.mem ++ [SlotSt.empty]).length
    simp [hn]
  have hemp1 : slotAt s1 n = SlotSt.empty := by
    show (s.mem ++ [SlotSt.empty]).getD n SlotSt.empty = SlotSt.empty
    rw [getD_append_single]
    simp [hn]
  have h1 := beginRun_ok s1 c (.ret v) n hf1 hlen1 hemp1 rfl
  set s2 : State := { s1 with mem := s1.mem.set n (.running (.ret v)),
                              ctors := dropCtor c s1.ctors } with hs2
  have hm2 : s2.mem = s.mem ++ [SlotSt.running (CtorK.ret v)] := by
    show (s.mem ++ [SlotSt.empty]).set n _ = _
    exact set_append_single s.mem SlotSt.empty _
  have hr2 : slotAt s2 n = SlotSt.running (.ret v) := by
    show s2.mem.getD n .empty = _
    rw [hm2, getD_append_single]
    simp [hn]
  have ho2 : ctorOutput s2 n (.ret v) = some (.ok v) := rfl
  have h2 := finishRun_ok_plain s2 n (.ret v) _ hr2 ho2 rfl
  simp only [emplaceFresh, emplaceOps, execs, ← hn, h0, h1, h2]
  rw [show s2.mem.set n (SlotSt.live v) = s.mem ++ [SlotSt.live v] from by
    rw [hm2]
    exact set_append_single s.mem _ _]

/-- Emplacing a failing fallible constructor into a fresh stack slot
appends an uninitialized failed slot; the typed failure is recorded and no
value is produced. -/
theorem emplaceFresh_fails (s : State) (c : Nat) (e : Err)
    (hf : findCtor c s.ctors = some (CtorK.fails e)) :
    emplaceFresh s c = some
      ({ mem := s.mem ++ [.failed e],
         ctors := dropCtor c s.ctors,
         events := s.events ++ [.ctorFailed s.mem.length e] }, s.mem.length) := by
  have h0 : exec s .alloc = some { s with mem := s.mem ++ [.empty] } := rfl
  set n := s.mem.length with hn
  set s1 : State := { s with mem := s.mem ++ [.empty] } with hs1
  have hf1 : findCtor c s1.ctors = some (CtorK.fails e) := hf
  have hlen1 : n < s1.mem.length := by
    show n < (s.mem ++ [SlotSt.empty]).length
    simp [hn]
  have hemp1 : slotAt s1 n = SlotSt.empty := by
    show (s.mem ++ [SlotSt.empty]).getD n SlotSt.empty = SlotSt.empty
    rw [getD_append_single]
    simp [hn]
  have h1 := beginRun_ok s1 c (.fails e) n hf1 hlen1 hemp1 rfl
  set s2 : State := { s1 with mem := s1.mem.set n (.running (.fails e)),
                              ctors := dropCtor c s1.ctors } with hs2
  have hm2 : s2.mem = s.mem ++ [SlotSt.running (CtorK.fails e)] := by
    show (s.mem ++ [SlotSt.empty]).set n _ = _
    exact set_append_single s.mem SlotSt.empty _
  have hr2 : slotAt s2 n = SlotSt.running (.fails e) := by
    show s2.mem.getD n .empty = _
    rw [hm2, getD_append_single]
    simp [hn]
  have ho2 : ctorOutput s2 n (.fails e) = some (.error e) := rfl
  have h2 := finishRun_err s2 n (.fails e) e hr2 ho2
  simp only [emplaceFresh, emplaceOps, execs, ← hn, h0, h1, h2]
  rw [show s2.mem.set n (SlotSt.failed e) = s.mem ++ [SlotSt.failed e] from by
    rw [hm2]
    exact set_append_single s.mem _ _]

/-- Destroying a list of distinct live slots appends one destruction event
per slot, in the given order; the listed slots end destroyed and all other
slots are untouched. -/
theorem destroyAll_spec : ∀ (l : List Addr) (s : State),
    (∀ a ∈ l, ∃ v, slotAt s a = SlotSt.live v) → l.Nodup →
    (destroyAll s l).events = s.events ++ l.map Event.destructed
    ∧ (∀ a ∈ l, slotAt (destroyAll s l) a = SlotSt.destroyed)
    ∧ (∀ a, a ∉ l → slotAt (destroyAll s l) a = slotAt s a)
  | [], s, _, _ => by
    refine ⟨by simp [destroyAll], by simp, fun a _ => rfl⟩
  | a :: rest, s, hlv, hnd => by
    obtain ⟨v, hv⟩ := hlv a (List.mem_cons_self a rest)
    have hlen : a < s.mem.length :=
      lt_length_of_slot_ne_empty s a (by rw [hv]; intro hc; cases hc)
    have hd := destroy_ok s a v hv
    set s1 : State := { s with mem := s.mem.set a .destroyed,
                               events := s.events ++ [.destructed a] } with hs1
    have hstep : destroyAll s (a :: rest) = destroyAll s1 rest := by
      show destroyAll ((exec s (.destroy a)).getD s) rest = _
      rw [hd]
      rfl
    have hne : ∀ b, b ≠ a → slotAt s1 b = slotAt s b := by
      intro b hb
      show (s.mem.set a _).getD b .empty = _
      rw [getD_set_ne _ _ _ _ _ hb]
      rfl
    have hdes : slotAt s1 a = SlotSt.destroyed := getD_set_self _ _ _ _ hlen
    have hrest : ∀ b ∈ rest, ∃ w, slotAt s1 b = SlotSt.live w := by
      intro b hb
      have hba : b ≠ a := by
        intro he
        rw [he] at hb
        exact (List.nodup_cons.mp hnd).1 hb
      rw [hne b hba]
      exact hlv b (List.mem_cons_of_mem a hb)
    obtain ⟨ih1, ih2, ih3⟩ :=
      destroyAll_spec rest s1 hrest (List.nodup_cons.mp hnd).2
    refine ⟨?_, ?_, ?_⟩
    · rw [hstep, ih1]
      show (s.events ++ [Event.destructed a]) ++ rest.map Event.destructed = _
      simp
    · intro b hb
      rw [hstep]
      rcases List.mem_cons.mp hb with hb' | hb'
      · rw [hb', ih3 a (List.nodup_cons.mp hnd).1]
        exact hdes
      · exact ih2 b hb'
    · intro b hb
      rw [hstep, ih3 b (fun hm => hb (List.mem_cons_of_mem a hm))]
      exact hne b (fun he => hb (he ▸ List.mem_cons_self a rest))

theorem scopeBuild_cons (s : State) (c : Nat) (cs : List Nat) (built : List Addr) :
    scopeBuild s (c :: cs) built =
      match emplaceFresh s c with
      | some (s', a) =>
        if isLive (slotAt s' a) then scopeBuild s' cs (a :: built) else (s', built)
      | none => (s, built) := rfl

/-- The construction phase of a scope of plain value constructors: the
live values are appended to memory in order, one construction event per
slot is recorded in order, and the constructed addresses accumulate most
recent first; the continuation of the scope then runs from the resulting
state. -/
theorem scopeBuild_rets : ∀ (pairs : List (Nat × Val)) (cs' : List Nat)
    (built : List Addr) (s : State),
    (pairs.map Prod.fst).Nodup →
    (∀ p ∈ pairs, findCtor p.1 s.ctors = some (CtorK.ret p.2)) →
    scopeBuild s (pairs.map Prod.fst ++ cs') built =
      scopeBuild
        { mem := s.mem ++ pairs.map (fun p => SlotSt.live p.2),
          ctors := dropCtors (pairs.map Prod.fst) s.ctors,
          events := s.events
            ++ (List.range' s.mem.length pairs.length).map Event.constructed }
        cs' ((List.range' s.mem.length pairs.length).reverse ++ built)
  | [], cs', built, s, _, _ => by
    show scopeBuild s cs' built = _
    simp [dropCtors]
  | p :: rest, cs', built, s, hnd, hfind => by
    have hfp := hfind p (List.mem_cons_self p rest)
    have hemp := emplaceFresh_ret s p.1 p.2 hfp
    set n := s.mem.length with hn
    set sA : State := { mem := s.mem ++ [SlotSt.live p.2],
                        ctors := dropCtor p.1 s.ctors,
                        events := s.events ++ [Event.constructed n] } with hsA
    have hliveA : slotAt sA n = SlotSt.live p.2 := by
      show (s.mem ++ [SlotSt.live p.2]).getD n SlotSt.empty = _
      rw [getD_append_single]
      simp [hn]
    have hstep : scopeBuild s (p.1 :: (rest.map Prod.fst ++ cs')) built
        = scopeBuild sA (rest.map Prod.fst ++ cs') (n :: built) := by
      rw [scopeBuild_cons, hemp]
      simp [hliveA, isLive]
    have hndr : (rest.map Prod.fst).Nodup := (List.nodup_cons.mp hnd).2
    have hfr : ∀ q ∈ rest, findCtor q.1 sA.ctors = some (CtorK.ret q.2) := by
      intro q hq
      have hqne : q.1 ≠ p.1 := by
        intro he
        exact (List.nodup_cons.mp hnd).1 (he ▸ List.mem_map_of_mem Prod.fst hq)
      show findCtor q.1 (dropCtor p.1 s.ctors) = _
      rw [findCtor_dropCtor_ne p.1 q.1 hqne]
      exact hfind q (List.mem_cons_of_mem p hq)
    have ih := scopeBuild_rets rest cs' (n :: built) sA hndr hfr
    have hlenA : sA.mem.length = n + 1 := by
      show (s.mem ++ [SlotSt.live p.2]).length = n + 1
      simp [hn]
    have hmemA : sA.mem ++ rest.map (fun q => SlotSt.live q.2)
        = s.mem ++ (p :: rest).map (fun q => SlotSt.live q.2) := by
      show (s.mem ++ [SlotSt.live p.2]) ++ _ = _
      simp
    have hevA : sA.events ++ (List.range' sA.mem.length rest.length).map Event.constructed
        = s.events ++ (List.range' n (rest.length + 1)).map Event.constructed := by
      rw [hlenA, List.range'_succ]
      show (s.events ++ [Event.constructed n]) ++ _ = _
      simp
    have hbA : (List.range' sA.mem.length rest.length).reverse ++ (n :: built)
        = (List.range' n (rest.length + 1)).reverse ++ built := by
      rw [hlenA, List.range'_succ]
      simp
    refine hstep.trans (ih.trans ?_)
    rw [hmemA, hevA, hbA]
    rfl

/-- Claim C6: stack-scoped slots.  Running a scope of constructors
emplaces each value into its own fresh slot and, at scope exit, destroys
each constructed value exactly once, in strict reverse order of
construction: the event trace lists the constructions in order followed by
the destructions of exactly the constructed slots in reverse order.  This
also holds when the scope is exited early because a later constructor of
the scope fails: the values constructed so far are destroyed in reverse
order and the constructors after the failing one never run. -/
theorem scope_exit_reverse_destruction (s : State) (pairs : List (Nat × Val))
    (hnd : (pairs.map Prod.fst).Nodup)
    (hfind : ∀ p ∈ pairs, findCtor p.1 s.ctors = some (CtorK.ret p.2)) :
    ((runScope s (pairs.map Prod.fst)).events
        = s.events
          ++ (List.range' s.mem.length pairs.length).map Event.constructed
          ++ ((List.range' s.mem.length pairs.length).reverse).map Event.destructed
      ∧ ∀ a ∈ List.range' s.mem.length pairs.length,
          slotAt (runScope s (pairs.map Prod.fst)) a = SlotSt.destroyed)
    ∧ (∀ f e rest, f ∉ pairs.map Prod.fst →
        findCtor f s.ctors = some (CtorK.fails e) →
        (runScope s (pairs.map Prod.fst ++ f :: rest)).events
            = s.events
              ++ (List.range' s.mem.length pairs.length).map Event.constructed
              ++ [Event.ctorFailed (s.mem.length + pairs.length) e]
              ++ ((List.range' s.mem.length pairs.length).reverse).map Event.destructed
          ∧ ∀ a ∈ List.range' s.mem.length pairs.length,
              slotAt (runScope s (pairs.map Prod.fst ++ f :: rest)) a
                = SlotSt.destroyed) := by
  set n := s.mem.length with hn
  set as := List.range' n pairs.length with has
  set Sb : State := { mem := s.mem ++ pairs.map (fun p => SlotSt.live p.2),
                      ctors := dropCtors (pairs.map Prod.fst) s.ctors,
                      events := s.events ++ as.map Event.constructed } with hSb
  have hlenb : Sb.mem.length = n + pairs.length := by
    show (s.mem ++ pairs.map _).length = _
    simp [hn]
  have hmemb : ∀ a ∈ as, ∃ v, slotAt Sb a = SlotSt.live v := by
    intro a ha
    rw [has] at ha
    obtain ⟨hge, hlt⟩ := List.mem_range'_1.mp ha
    obtain ⟨v, hv⟩ := getD_map_live pairs (a - n) (by omega)
    refine ⟨v, ?_⟩
    show (s.mem ++ pairs.map _).getD a SlotSt.empty = _
    rw [getD_append_right _ _ _ _ (by omega : s.mem.length ≤ a), ← hn]
    exact hv
  have hnodup : as.reverse.Nodup := by
    rw [has]
    exact List.nodup_reverse.mpr (List.nodup_range' n pairs.length)
  have hsbv : scopeBuild s (pairs.map Prod.fst) [] = (Sb, as.reverse) := by
    have h := scopeBuild_rets pairs [] [] s hnd hfind
    simp only [List.append_nil] at h
    exact h
  have hrs : runScope s (pairs.map Prod.fst) = destroyAll Sb as.reverse := by
    show destroyAll (scopeBuild s (pairs.map Prod.fst) []).1
        (scopeBuild s (pairs.map Prod.fst) []).2 = _
    rw [hsbv]
  obtain ⟨he1, hd1, _⟩ := destroyAll_spec as.reverse Sb
    (fun a ha => hmemb a (List.mem_reverse.mp ha)) hnodup
  refine ⟨⟨?_, ?_⟩, ?_⟩
  · rw [hrs, he1]
  · intro a ha
    rw [hrs]
    exact hd1 a (List.mem_reverse.mpr ha)
  · intro f e rest hfnot hff
    have hffb : findCtor f Sb.ctors = some (CtorK.fails e) := by
      show findCtor f (dropCtors (pairs.map Prod.fst) s.ctors) = _
      rw [findCtor_dropCtors_not_mem f (pairs.map Prod.fst) s.ctors hfnot]
      exact hff
    have hef := emplaceFresh_fails Sb f e hffb
    set m := Sb.mem.length with hm
    set Sf : State := { mem := Sb.mem ++ [SlotSt.failed e],
                        ctors := dropCtor f Sb.ctors,
                        events := Sb.events ++ [Event.ctorFailed m e] } with hSf
    have hm2 : m = n + pairs.length := by
      rw [hm]
      exact hlenb
    have hfailm : slotAt Sf m = SlotSt.failed e := by
      show (Sb.mem ++ [SlotSt.failed e]).getD m SlotSt.empty = _
      rw [getD_append_single]
      simp [hm]
    have hsbv2 : scopeBuild s (pairs.map Prod.fst ++ f :: rest) [] = (Sf, as.reverse) := by
      have h := scopeBuild_rets pairs (f :: rest) [] s hnd hfind
      simp only [List.append_nil] at h
      rw [← hSb] at h
      rw [h, scopeBuild_cons, hef]
      simp [isLive, hfailm]
    have hrs2 : runScope s (pairs.map Prod.fst ++ f :: rest)
        = destroyAll Sf as.reverse := by
      show destroyAll (scopeBuild s (pairs.map Prod.fst ++ f :: rest) []).1
          (scopeBuild s (pairs.map Prod.fst ++ f :: rest) []).2 = _
      rw [hsbv2]
    have hmembf : ∀ a ∈ as.reverse, ∃ v, slotAt Sf a = SlotSt.live v := by
      intro a ha
      have ha' := List.mem_reverse.mp ha
      obtain ⟨v, hv⟩ := hmemb a ha'
      have hlt : a < Sb.mem.length := by
        rw [has] at ha'
        obtain ⟨_, hlt'⟩ := List.mem_range'_1.mp ha'
        omega
      refine ⟨v, ?_⟩
      show (Sb.mem ++ [SlotSt.failed e]).getD a SlotSt.empty = _
      rw [getD_append_left _ _ _ _ hlt]
      exact hv
    obtain ⟨he2, hd2, _⟩ := destroyAll_spec as.reverse Sf hmembf hnodup
    refine ⟨?_, ?_⟩
    · rw [hrs2, he2]
      show (Sb.events ++ [Event.ctorFailed m e]) ++ List.map Event.destructed as.reverse
        = _
      rw [hm2]
    · intro a ha
      rw [hrs2]
      exact hd2 a (List.mem_reverse.mpr ha)

/-- Witness for claim C6 at a concrete input: a scope of two plain value
constructors over an initially empty memory, together with its variant
that is exited early by a failing third constructor. -/
theorem scope_exit_reverse_destruction_witness :
    ((runScope { mem := [],
                 ctors := [(0, CtorK.ret { data := ['a'], slice := none }),
                           (1, CtorK.ret { data := ['b'], slice := none }),
                           (5, CtorK.fails 9)],
                 events := [] }
        ([((0 : Nat), ({ data := ['a'], slice := none } : Val)),
          ((1 : Nat), ({ data := ['b'], slice := none } : Val))].map Prod.fst)).events
        = [] ++ (List.range' 0 2).map Event.constructed
          ++ ((List.range' 0 2).reverse).map Event.destructed
      ∧ ∀ a ∈ List.range' 0 2,
          slotAt (runScope { mem := [],
                             ctors := [(0, CtorK.ret { data := ['a'], slice := none }),
                                       (1, CtorK.ret { data := ['b'], slice := none }),
                                       (5, CtorK.fails 9)],
                             events := [] }
            ([((0 : Nat), ({ data := ['a'], slice := none } : Val)),
              ((1 : Nat), ({ data := ['b'], slice := none } : Val))].map Prod.fst)) a
            = SlotSt.destroyed)
    ∧ (∀ f e rest,
        f ∉ [((0 : Nat), ({ data := ['a'], slice := none } : Val)),
             (1, { data := ['b'], slice := none })].map Prod.fst →
        findCtor f [(0, CtorK.ret { data := ['a'], slice := none }),
                    (1, CtorK.ret { data := ['b'], slice := none }),
                    (5, CtorK.fails 9)] = some (CtorK.fails e) →
        (runScope { mem := [],
                    ctors := [(0, CtorK.ret { data := ['a'], slice := none }),
                              (1, CtorK.ret { data := ['b'], slice := none }),
                              (5, CtorK.fails 9)],
                    events := [] }
            ([((0 : Nat), ({ data := ['a'], slice := none } : Val)),
              ((1 : Nat), ({ data := ['b'], slice := none } : Val))].map Prod.fst ++ f :: rest)).events
            = [] ++ (List.range' 0 2).map Event.constructed
              ++ [Event.ctorFailed (0 + 2) e]
              ++ ((List.range' 0 2).reverse).map Event.destructed
          ∧ ∀ a ∈ List.range' 0 2,
              slotAt (runScope { mem := [],
                                 ctors := [(0, CtorK.ret { data := ['a'], slice := none }),
                                           (1, CtorK.ret { data := ['b'], slice := none }),
                                           (5, CtorK.fails 9)],
                                 events := [] }
                ([((0 : Nat), ({ data := ['a'], slice := none } : Val)),
                  ((1 : Nat), ({ data := ['b'], slice := none } : Val))].map Prod.fst ++ f :: rest)) a
                = SlotSt.destroyed) :=
  scope_exit_reverse_destruction
    { mem := [],
      ctors := [(0, CtorK.ret { data := ['a'], slice := none }),
                (1, CtorK.ret { data := ['b'], slice := none }),
                (5, CtorK.fails 9)],
      events := [] }
    [((0 : Nat), ({ data := ['a'], slice := none } : Val)),
     ((1 : Nat), ({ data := ['b'], slice := none } : Val))]
    (by decide) (by decide)

end Moveit
